import Mathlib

/-!
Verification of the palletinator repository core: the grid assembler
(src/palletinator/engine.py), the side/column aggregator, grid transposer and
pallet-config grouping (src/palletinator/pallet_program.py), and the pallet
data structures (src/palletinator/pallet.py).

Python semantics is embedded explicitly: machine lists keep Python indexing
(negative indices address from the end, out-of-range raises IndexError,
modelled by Except), while-append padding loops become explicit padding, and
dictionaries become association lists whose key sets are iterated in sorted
order where the source sorts them.
-/

set_option autoImplicit false

universe u v

/-- Resolve a Python list index (which may be negative, addressing from the
end) against a list of the given length; none models IndexError. -/
def pyIdx (len : Nat) (i : Int) : Option Nat :=
  if 0 ≤ i then (if i < (len : Int) then some i.toNat else none)
  else (if -i ≤ (len : Int) then some (len - (-i).toNat) else none)

/-- Model of the padding loop: while len(l) < n, append x.  For n below the
current length (including non-positive n) nothing is appended. -/
def padTo {α : Type u} (l : List α) (n : Int) (x : α) : List α :=
  l ++ List.replicate (n.toNat - l.length) x

/-- Model of Python list(range(a, b)). -/
def pyRange (a b : Int) : List Int :=
  (List.range (b - a).toNat).map (fun k => a + (k : Int))

/-- Association-list lookup, first matching key wins; models membership and
item access of a Python dict whose keys are inserted at most once. -/
def alget {κ : Type u} {ν : Type v} [DecidableEq κ] : List (κ × ν) → κ → Option ν
  | [], _ => none
  | p :: t, k => if p.1 = k then some p.2 else alget t k

/-- Update every entry with the given key by f; models in-place mutation of a
Python dict value. -/
def alupdate {κ : Type u} {ν : Type v} [DecidableEq κ] (m : List (κ × ν)) (k : κ) (f : ν → ν) :
    List (κ × ν) :=
  m.map (fun p => if p.1 = k then (p.1, f p.2) else p)

/-- Insert into a ≤-sorted list of keys. -/
def insertSorted (a : Int) : List Int → List Int
  | [] => [a]
  | b :: t => if a ≤ b then a :: b :: t else b :: insertSorted a t

/-- Model of Python sorted(...) on dict keys (insertion sort). -/
def sortKeys : List Int → List Int
  | [] => []
  | a :: t => insertSorted a (sortKeys t)

theorem mem_insertSorted (a x : Int) (l : List Int) :
    x ∈ insertSorted a l ↔ x = a ∨ x ∈ l := by
  induction l with
  | nil => simp [insertSorted]
  | cons b t ih =>
    by_cases h : a ≤ b
    · simp [insertSorted, h]
    · simp [insertSorted, h, ih]
      tauto

theorem mem_sortKeys (x : Int) (l : List Int) : x ∈ sortKeys l ↔ x ∈ l := by
  induction l with
  | nil => simp [sortKeys]
  | cons a t ih => simp [sortKeys, mem_insertSorted, ih]

theorem padTo_length {α : Type u} (l : List α) (n : Int) (x : α) :
    (padTo l n x).length = max l.length n.toNat := by
  simp [padTo]
  omega

theorem padTo_getD {α : Type u} (l : List α) (n : Int) (x : α) (i : Nat) :
    (padTo l n x).getD i x = l.getD i x := by
  simp only [padTo, List.getD_eq_getElem?_getD]
  by_cases h : i < l.length
  · rw [List.getElem?_append_left h]
  · rw [List.getElem?_append_right (by omega)]
    rw [@List.getElem?_eq_none _ l i (by omega)]
    simp only [Option.getD_none]
    rcases Nat.lt_or_ge (i - l.length) (n.toNat - l.length) with hk | hk
    · simp [List.getElem?_replicate, hk]
    · rw [List.getElem?_eq_none (by simpa using hk)]
      rfl

theorem pyIdx_pos (len : Nat) (c : Int) (hc : 1 ≤ c) (hlen : c.toNat ≤ len) :
    pyIdx len (c - 1) = some (c.toNat - 1) := by
  unfold pyIdx
  rw [if_pos (by omega), if_pos (by omega)]
  congr 1
  omega

theorem set_getD {α : Type u} (l : List α) (i : Nat) (v : α) (j : Nat) (d : α)
    (hi : i < l.length) :
    (l.set i v).getD j d = if j = i then v else l.getD j d := by
  by_cases h : j = i
  · subst h
    simp [List.getD_eq_getElem?_getD, List.getElem?_set_self, hi]
  · simp [List.getD_eq_getElem?_getD, List.getElem?_set_ne (fun hne => h hne.symm), h]

theorem pyRange_one_three : pyRange 1 3 = [1, 2] := by decide

theorem pyRange_one_four : pyRange 1 4 = [1, 2, 3] := by decide

instance {ε : Type u} {α : Type v} [DecidableEq ε] [DecidableEq α] :
    DecidableEq (Except ε α) := fun x y =>
  match x, y with
  | Except.ok a, Except.ok b =>
    if h : a = b then isTrue (by rw [h]) else isFalse (fun hh => h (Except.ok.inj hh))
  | Except.error a, Except.error b =>
    if h : a = b then isTrue (by rw [h]) else isFalse (fun hh => h (Except.error.inj hh))
  | Except.ok _, Except.error _ => isFalse (fun hh => Except.noConfusion hh)
  | Except.error _, Except.ok _ => isFalse (fun hh => Except.noConfusion hh)

namespace Engine

/-- Row from src/palletinator/engine.py (class Row). -/
structure Row where
  baby_zppk : String
  sides : List Int
  columns : List Int
deriving DecidableEq, Repr

/-- PalletCell from src/palletinator/pallet.py. -/
structure PalletCell where
  display_text : String
  metadata : List (String × String) := []
deriving DecidableEq, Repr

/-- PalletColumn from src/palletinator/pallet.py. -/
structure PalletColumn where
  cells : List PalletCell := []
deriving DecidableEq, Repr

/-- PalletSide from src/palletinator/pallet.py. -/
structure PalletSide where
  columns : List PalletColumn := []
deriving DecidableEq, Repr

/-- Pallet from src/palletinator/pallet.py. -/
structure Pallet where
  metadata : List (String × String) := []
  sides : List PalletSide := []
deriving DecidableEq, Repr

/-- The cell appended by Palletinator.parse_pallet for a row: display text is
the row identifier, the design key is the unresolved placeholder. -/
def mkCell (row : Row) : PalletCell :=
  { display_text := row.baby_zppk, metadata := [("design_key", "[FIXME]")] }

/-- The effective column list of engine.py lines 33-37: if repeat_columns is
set the sentinel test on row.columns[0] is short-circuited away; otherwise
row.columns[0] is read (IndexError on an empty list) and compared with 5. -/
def effColumns (rc : Bool) (cols : List Int) (side : Int) : Except String (List Int) :=
  if rc then
    Except.ok (pyRange 1 ((if side % 2 = 0 then (2 : Int) else 3) + 1))
  else
    match cols with
    | [] => Except.error "IndexError: list index out of range"
    | c0 :: rest =>
      if c0 = 5 then Except.ok (pyRange 1 ((if side % 2 = 0 then (2 : Int) else 3) + 1))
      else Except.ok (c0 :: rest)

/-- pallet_side.columns[column - 1].cells.append(...) preceded by the
while-padding loop of engine.py lines 41-42. -/
def appendCellAt (s : PalletSide) (c : Int) (cell : PalletCell) : Except String PalletSide :=
  let cols1 := padTo s.columns c ⟨[]⟩
  match pyIdx cols1.length (c - 1) with
  | none => Except.error "IndexError: list index out of range"
  | some j => Except.ok ⟨cols1.set j ⟨(cols1.getD j ⟨[]⟩).cells ++ [cell]⟩⟩

/-- The inner column loop of parse_pallet. -/
def appendCells (cell : PalletCell) : PalletSide → List Int → Except String PalletSide
  | s, [] => Except.ok s
  | s, c :: rest =>
    match appendCellAt s c cell with
    | Except.error e => Except.error e
    | Except.ok s' => appendCells cell s' rest

/-- One iteration of the side loop of parse_pallet: pad pallet.sides, compute
the effective columns, index pallet.sides[side - 1], run the column loop. -/
def processRowSide (p : Pallet) (row : Row) (side : Int) (rc : Bool) : Except String Pallet :=
  let sides1 := padTo p.sides side ⟨[]⟩
  match effColumns rc row.columns side with
  | Except.error e => Except.error e
  | Except.ok cols =>
    match pyIdx sides1.length (side - 1) with
    | none => Except.error "IndexError: list index out of range"
    | some i =>
      match appendCells (mkCell row) (sides1.getD i ⟨[]⟩) cols with
      | Except.error e => Except.error e
      | Except.ok s' => Except.ok { p with sides := sides1.set i s' }

/-- The side loop of parse_pallet over one row. -/
def parseRowSides (row : Row) (rc : Bool) : Pallet → List Int → Except String Pallet
  | p, [] => Except.ok p
  | p, side :: rest =>
    match processRowSide p row side rc with
    | Except.error e => Except.error e
    | Except.ok p' => parseRowSides row rc p' rest

/-- The row loop of parse_pallet. -/
def parseRows (rc : Bool) : Pallet → List Row → Except String Pallet
  | p, [] => Except.ok p
  | p, row :: rest =>
    match parseRowSides row rc p row.sides with
    | Except.error e => Except.error e
    | Except.ok p' => parseRows rc p' rest

/-- Palletinator.parse_pallet from src/palletinator/engine.py (the source
defaults repeat_columns to False; here it is passed explicitly). -/
def parse_pallet (rows : List Row) (repeat_columns : Bool) : Except String Pallet :=
  parseRows repeat_columns {} rows

/-- The cells stacked at 1-based column c of a side (empty when the column
does not exist). -/
def colCells (s : PalletSide) (c : Int) : List PalletCell :=
  (s.columns.getD (c - 1).toNat ⟨[]⟩).cells

/-- The cells stacked at 1-based (side, column) of a pallet. -/
def cellsAt (p : Pallet) (s c : Int) : List PalletCell :=
  colCells (p.sides.getD (s - 1).toNat ⟨[]⟩) c

end Engine

namespace Engine

theorem appendCellAt_spec (s : PalletSide) (c : Int) (cell : PalletCell) (hc : 1 ≤ c) :
    ∃ s', appendCellAt s c cell = Except.ok s' ∧
      ∀ c' : Int, 1 ≤ c' →
        colCells s' c' = colCells s c' ++ (if c' = c then [cell] else []) := by
  have hlen : (padTo s.columns c (⟨[]⟩ : PalletColumn)).length
      = max s.columns.length c.toNat := padTo_length _ _ _
  have hidx : pyIdx (padTo s.columns c (⟨[]⟩ : PalletColumn)).length (c - 1)
      = some (c.toNat - 1) := pyIdx_pos _ _ hc (by omega)
  unfold appendCellAt
  simp only [hidx]
  refine ⟨_, rfl, ?_⟩
  intro c' hc'
  unfold colCells
  simp only
  have h1 : (c' - 1).toNat = c'.toNat - 1 := by omega
  have h2 : (c - 1).toNat = c.toNat - 1 := by omega
  have hjlt : c.toNat - 1 < (padTo s.columns c (⟨[]⟩ : PalletColumn)).length := by omega
  rw [h1, set_getD _ _ _ _ _ hjlt]
  by_cases he : c' = c
  · subst he
    rw [if_pos rfl, if_pos rfl]
    rw [padTo_getD s.columns c' (⟨[]⟩ : PalletColumn) (c'.toNat - 1)]
  · rw [if_neg (by omega), if_neg he]
    rw [padTo_getD s.columns c (⟨[]⟩ : PalletColumn) (c'.toNat - 1)]
    simp

theorem appendCells_spec (cell : PalletCell) (cols : List Int) (h : ∀ c ∈ cols, 1 ≤ c) :
    ∀ s : PalletSide, ∃ s', appendCells cell s cols = Except.ok s' ∧
      ∀ c' : Int, 1 ≤ c' →
        colCells s' c' = colCells s c' ++ List.replicate (cols.count c') cell := by
  induction cols with
  | nil => intro s; exact ⟨s, rfl, by simp [appendCells]⟩
  | cons c rest ih =>
    intro s
    obtain ⟨s1, h1, hcol1⟩ := appendCellAt_spec s c cell (h c (by simp))
    obtain ⟨s2, h2, hcol2⟩ := ih (fun c hcm => h c (by simp [hcm])) s1
    refine ⟨s2, ?_, ?_⟩
    · simp [appendCells, h1, h2]
    · intro c' hc'
      rw [hcol2 c' hc', hcol1 c' hc', List.append_assoc, List.count_cons]
      congr 1
      by_cases he : c' = c
      · subst he
        simp [List.replicate_succ]
      · have hne : ¬c = c' := fun hh => he hh.symm
        simp [he, hne]

theorem effColumns_eq (rc : Bool) (c0 : Int) (rest : List Int) (side : Int) :
    effColumns rc (c0 :: rest) side =
      Except.ok (if rc = true ∨ c0 = 5 then (if side % 2 = 0 then [(1 : Int), 2] else [1, 2, 3])
                 else c0 :: rest) := by
  cases rc with
  | true =>
    by_cases hpar : side % 2 = 0 <;> simp [effColumns, hpar] <;> decide
  | false =>
    by_cases h5 : c0 = 5
    · by_cases hpar : side % 2 = 0 <;> simp [effColumns, h5, hpar] <;> decide
    · simp [effColumns, h5]

theorem processRowSide_spec (p : Pallet) (row : Row) (side : Int) (rc : Bool)
    (ecols : List Int) (hec : effColumns rc row.columns side = Except.ok ecols)
    (hs : 1 ≤ side) (hc : ∀ c ∈ ecols, 1 ≤ c) :
    ∃ p', processRowSide p row side rc = Except.ok p' ∧
      ∀ s' c' : Int, 1 ≤ s' → 1 ≤ c' →
        cellsAt p' s' c' = cellsAt p s' c' ++
          (if s' = side then List.replicate (ecols.count c') (mkCell row) else []) := by
  have hlen : (padTo p.sides side (⟨[]⟩ : PalletSide)).length
      = max p.sides.length side.toNat := padTo_length _ _ _
  have hidx : pyIdx (padTo p.sides side (⟨[]⟩ : PalletSide)).length (side - 1)
      = some (side.toNat - 1) := pyIdx_pos _ _ hs (by omega)
  obtain ⟨sNew, hrun, hcols⟩ :=
    appendCells_spec (mkCell row) ecols hc
      ((padTo p.sides side (⟨[]⟩ : PalletSide)).getD (side.toNat - 1) ⟨[]⟩)
  unfold processRowSide
  simp only [hec, hidx, hrun]
  refine ⟨_, rfl, ?_⟩
  intro s' c' hs' hc'
  unfold cellsAt
  simp only
  have h1 : (s' - 1).toNat = s'.toNat - 1 := by omega
  have h2 : (side - 1).toNat = side.toNat - 1 := by omega
  have hjlt : side.toNat - 1 < (padTo p.sides side (⟨[]⟩ : PalletSide)).length := by omega
  rw [h1, set_getD _ _ _ _ _ hjlt]
  by_cases he : s' = side
  · subst he
    rw [if_pos (by omega), if_pos rfl]
    rw [hcols c' hc']
    rw [padTo_getD p.sides s' (⟨[]⟩ : PalletSide) (s'.toNat - 1)]
  · rw [if_neg (by omega), if_neg he]
    rw [padTo_getD p.sides side (⟨[]⟩ : PalletSide) (s'.toNat - 1)]
    simp

end Engine

/-- Concrete rows for witnesses: the row of tests/test_engine.py, and rows
exercising a non-positive side number. -/
def rowT : Engine.Row := ⟨"ZPPK-1234", [1], [1, 2]⟩

def rowA : Engine.Row := ⟨"a", [1], [1]⟩

def rowB : Engine.Row := ⟨"b", [0], [1]⟩

/-- C5: for every row processed by parse_pallet and side s, the effective
column list is [1,2] (even s) or [1,2,3] (odd s) when repeat_columns is set or
the first parsed column equals the sentinel 5, and exactly the parsed column
list otherwise; one PalletCell carrying the row display text is appended to
each effective column of side s (stated via occurrence counts, so duplicated
column values are also covered; positivity of side and columns is the row
input contract of the spec). -/
theorem C5_thm (rc : Bool) (row : Engine.Row) (side : Int) (p : Engine.Pallet)
    (ecols : List Int)
    (hec : Engine.effColumns rc row.columns side = Except.ok ecols)
    (hside : 1 ≤ side) (hcols : ∀ c ∈ ecols, 1 ≤ c) :
    (∀ c0 rest, row.columns = c0 :: rest →
      ecols = if rc = true ∨ c0 = 5 then (if side % 2 = 0 then [(1 : Int), 2] else [1, 2, 3])
              else c0 :: rest) ∧
    ∃ p', Engine.processRowSide p row side rc = Except.ok p' ∧
      ∀ s c : Int, 1 ≤ s → 1 ≤ c →
        Engine.cellsAt p' s c = Engine.cellsAt p s c ++
          (if s = side then List.replicate (ecols.count c) (Engine.mkCell row) else []) := by
  constructor
  · intro c0 rest hrow
    have h := hec
    rw [hrow, Engine.effColumns_eq] at h
    rw [Except.ok.injEq] at h
    exact h.symm
  · exact Engine.processRowSide_spec p row side rc ecols hec hside hcols

/-- Witness for C5 at the concrete test row of tests/test_engine.py. -/
theorem C5_witness :
    Engine.effColumns false rowT.columns 1 = Except.ok [1, 2] ∧
    (∃ p', Engine.processRowSide {} rowT 1 false = Except.ok p' ∧
      ∀ s c : Int, 1 ≤ s → 1 ≤ c →
        Engine.cellsAt p' s c = Engine.cellsAt {} s c ++
          (if s = 1 then List.replicate (List.count c [(1 : Int), 2]) (Engine.mkCell rowT)
           else [])) :=
  ⟨by decide, (C5_thm false rowT 1 {} [1, 2] (by decide) (by decide) (by decide)).2⟩

/-- C2 (code behaviour at the failing input): a second row addressing side 0
does not raise; its cell is silently appended to side 1, column 1 through
Python negative indexing, contradicting the fail-fast contract. -/
theorem C2_code_behavior :
    Engine.parse_pallet [rowA, rowB] false =
      Except.ok { metadata := [],
                  sides := [⟨[⟨[Engine.mkCell rowA, Engine.mkCell rowB]⟩]⟩] } := by decide

namespace PalletProgram

/-- Row from src/palletinator/pallet_program.py (dataclass Row), fields in
source order. -/
structure Row where
  callout : String
  parent_zppk : String
  baby_zppk : String
  team_key : String
  team_name : String
  requested_pallet_count : Int
  dc_target : String
  color_description : String
  logo_description : String
  sides : List Int
  columns : List Int
  rows : List Int
deriving DecidableEq, Repr

/-- PalletType from src/palletinator/pallet_program.py. -/
inductive PalletType where
  | FULL
  | HALF
  | TOWER
deriving DecidableEq, Repr

/-- PalletConfig from src/palletinator/pallet_program.py. -/
structure PalletConfig where
  zppk : String
  team_key : String
  team_name : String
  callout : String
  dc_target : String
  pallet_type : PalletType
  required_count : Int
  sides : List (List String)
deriving DecidableEq, Repr

/-- The design lookup key of parse_sides lines 146-152: first 7 characters of
the logo description, the color description with commas stripped, and the
team key, joined by spaces. -/
def design_key (row : Row) : String :=
  row.logo_description.take 7 ++ " " ++ row.color_description.replace "," "" ++ " "
    ++ row.team_key

/-- Mutable accumulation state of parse_sides lines 131-132: the per-(side,
column) design-key cache and the side to column to id-list mapping, both
insertion-ordered dicts. -/
structure AccState where
  column_designs_cache : List ((Int × Int) × String) := []
  sides : List (Int × List (Int × List String)) := []
deriving DecidableEq, Repr

def accInit : AccState := {}

/-- parse_sides lines 135-140: the sentinel test on row.columns[0] (IndexError
on an empty column list), the permanent switch of repeat_columns, and the
effective column list.  Returns the updated flag with the columns. -/
def parseSidesColumns (rc : Bool) (cols : List Int) (side : Int) :
    Except String (Bool × List Int) :=
  match cols with
  | [] => Except.error "IndexError: list index out of range"
  | c0 :: rest =>
    if c0 = 5 then
      let base := if side % 2 = 0 then [(2 : Int)] else [3]
      Except.ok (true, pyRange 1 (base.headD 0 + 1))
    else
      Except.ok (rc, if rc then pyRange 1 (c0 + 1) else c0 :: rest)

/-- parse_sides lines 142-143: if side not in sides, sides[side] becomes an
empty dict. -/
def ensureSide (m : List (Int × List (Int × List String))) (side : Int) :
    List (Int × List (Int × List String)) :=
  if (alget m side).isSome then m else m ++ [(side, [])]

/-- parse_sides lines 142-153, one effective column: create the side and
column entries on first sight (caching the design key with a fresh column)
and append the row identifier. -/
def accCol (st : AccState) (row : Row) (side : Int) (column : Int) : AccState :=
  let sides1 := ensureSide st.sides side
  let freshCol := (alget ((alget sides1 side).getD []) column).isNone
  let sides2 := if freshCol then alupdate sides1 side (fun m => m ++ [(column, [])]) else sides1
  let cache2 :=
    if freshCol then st.column_designs_cache ++ [((side, column), design_key row)]
    else st.column_designs_cache
  let sides3 :=
    alupdate sides2 side (fun m => alupdate m column (fun l => l ++ [row.baby_zppk]))
  { column_designs_cache := cache2, sides := sides3 }

/-- The side loop of the accumulation phase over one row, threading the
repeat_columns flag. -/
def accRowSides (row : Row) : AccState × Bool → List Int → Except String (AccState × Bool)
  | acc, [] => Except.ok acc
  | acc, side :: rest =>
    match parseSidesColumns acc.2 row.columns side with
    | Except.error e => Except.error e
    | Except.ok (rc', cols) =>
      accRowSides row (cols.foldl (fun st c => accCol st row side c) acc.1, rc') rest

/-- The row loop of the accumulation phase of parse_sides. -/
def accRows : AccState × Bool → List Row → Except String (AccState × Bool)
  | acc, [] => Except.ok acc
  | acc, row :: rest =>
    match accRowSides row acc row.sides with
    | Except.error e => Except.error e
    | Except.ok acc' => accRows acc' rest

/-- One aggregated (side, column) slot as visited by the emission phase. -/
structure Slot where
  side : Int
  column : Int
  key : String
  ids : List String
deriving DecidableEq, Repr

/-- parse_sides lines 158-161: sides, then columns, enumerated in ascending
sorted key order, paired with the cached design key and accumulated ids. -/
def sortedSlots (st : AccState) : List Slot :=
  (sortKeys (st.sides.map Prod.fst)).flatMap (fun s =>
    let colsMap := (alget st.sides s).getD []
    (sortKeys (colsMap.map Prod.fst)).map (fun c =>
      { side := s, column := c,
        key := (alget st.column_designs_cache (s, c)).getD "",
        ids := (alget colsMap c).getD [] }))

/-- Modelled from the spec: the external DesignResolver capability of spec
section 4.3.  lookup models the OnSiteDesign title query of parse_sides lines
164-168 (core.orm is not part of src/); fetch models get_image_for_design of
pallet_program.py lines 23-35, whose body calls the external local_api client
and may raise (modelled by Except.error). -/
structure Resolver where
  lookup : String → Option Int
  fetch : Int → Except Unit String

/-- The adjacency-cache state of parse_sides lines 155-156. -/
structure ResState where
  last_used_design_number : Option Int := none
  last_used_design_image : Option String := none
deriving DecidableEq, Repr

def resInit : ResState := {}

/-- The Python fallback f-string of parse_sides lines 177 and 179. -/
def fallbackText (key : String) (d : Option Int) : String :=
  "key_=\x27" ++ key ++ "\x27 design_number="
    ++ (match d with
        | none => "None"
        | some n => toString n)

/-- parse_sides lines 164-181 for one slot: look the key up, reuse the
previous image only when the found number is truthy (non-None and non-zero)
and equal to the previous number, otherwise fetch (counting the invocation)
with the fallback text on a missing number or a raising fetch.  Returns the
appended image string, the updated cache state, and how often fetch ran. -/
def resolveSlot (res : Resolver) (st : ResState) (key : String) : String × ResState × Nat :=
  match res.lookup key with
  | some n =>
    if n ≠ 0 ∧ st.last_used_design_number = some n then
      (st.last_used_design_image.getD "None", st, 0)
    else
      match res.fetch n with
      | Except.ok img => (img, ⟨some n, some img⟩, 1)
      | Except.error _ =>
        let img := fallbackText key (some n)
        (img, ⟨some n, some img⟩, 1)
  | none =>
    let img := fallbackText key none
    (img, ⟨none, some img⟩, 0)

/-- parse_sides lines 162-163: keep only the last four accumulated ids when
more than four were collected. -/
def trimTo4 (l : List String) : List String :=
  if 4 < l.length then l.drop (l.length - 4) else l

/-- The emission loop of parse_sides lines 158-182 over the sorted slots:
trim each id list, resolve its image, and append the image string as the
trailing element; also totals the fetch invocations. -/
def emitSlots (res : Resolver) (st : ResState) :
    List Slot → List (List String) × Nat × ResState
  | [] => ([], 0, st)
  | sl :: rest =>
    let trimmed := trimTo4 sl.ids
    let r := resolveSlot res st sl.key
    let t := emitSlots res r.2.1 rest
    ((trimmed ++ [r.1]) :: t.1, r.2.2 + t.2.1, t.2.2)

/-- parse_sides from src/palletinator/pallet_program.py (the source defaults
repeat_columns to False; here it is passed explicitly), parameterised by the
external resolver. -/
def parse_sides (res : Resolver) (rows : List Row) (repeat_columns : Bool) :
    Except String (List (List String)) :=
  match accRows (accInit, repeat_columns) rows with
  | Except.error e => Except.error e
  | Except.ok (st, _) => Except.ok (emitSlots res resInit (sortedSlots st)).1

/-- The fixed header labels of flip_pallet_sides. -/
def heads : List String :=
  ["XS (13) / S (13)", "M (30)", "L (32)", "XL (20)", "IMAGE"]

/-- Python lst[index] for a non-negative index. -/
def pyGetS (l : List String) (i : Nat) : Except String String :=
  match l[i]? with
  | some v => Except.ok v
  | none => Except.error "IndexError: list index out of range"

/-- The list comprehension of flip_pallet_sides line 191: the values at one
index across all inner lists, raising on the first inner list that is too
short. -/
def getCol (data : List (List String)) (i : Nat) : Except String (List String) :=
  match data with
  | [] => Except.ok []
  | l :: rest =>
    match pyGetS l i with
    | Except.error e => Except.error e
    | Except.ok v =>
      match getCol rest i with
      | Except.error e => Except.error e
      | Except.ok vs => Except.ok (v :: vs)

/-- The loop of flip_pallet_sides over enumerate(heads). -/
def flipRows (data : List (List String)) : List String → Nat → Except String (List (List String))
  | [], _ => Except.ok []
  | h :: hs, i =>
    match getCol data i with
    | Except.error e => Except.error e
    | Except.ok col =>
      match flipRows data hs (i + 1) with
      | Except.error e => Except.error e
      | Except.ok out => Except.ok ((h :: col) :: out)

/-- flip_pallet_sides from src/palletinator/pallet_program.py. -/
def flip_pallet_sides (data : List (List String)) : Except String (List (List String)) :=
  flipRows data heads 0

/-- PalletConfig.build_from from src/palletinator/pallet_program.py:
rows.pop() (IndexError on an empty list), metadata from the popped last row,
identifiers from rows[-1] of the remaining list (IndexError when it is
empty), and the sides table from parse_sides composed with flip_pallet_sides
on the remaining rows.  The destructive pop is modelled by also returning the
remaining list the caller is left with. -/
def PalletConfig.build_from (res : Resolver) (rows : List Row) :
    Except String (PalletConfig × List Row) :=
  match rows.getLast? with
  | none => Except.error "IndexError: pop from empty list"
  | some last =>
    let rest := rows.dropLast
    match rest.getLast? with
    | none => Except.error "IndexError: list index out of range"
    | some prev =>
      match parse_sides res rest false with
      | Except.error e => Except.error e
      | Except.ok parsed =>
        match flip_pallet_sides parsed with
        | Except.error e => Except.error e
        | Except.ok sides =>
          Except.ok
            ({ zppk := prev.parent_zppk, team_key := prev.team_key,
               team_name := prev.team_name, callout := last.callout,
               dc_target := last.dc_target, pallet_type := PalletType.TOWER,
               required_count := last.requested_pallet_count, sides := sides }, rest)

end PalletProgram

namespace PalletProgram

theorem parseSidesColumns_eq (rc : Bool) (c0 : Int) (rest : List Int) (side : Int) :
    parseSidesColumns rc (c0 :: rest) side =
      Except.ok (if c0 = 5 then true else rc,
                 if c0 = 5 then (if side % 2 = 0 then [(1 : Int), 2] else [1, 2, 3])
                 else if rc then pyRange 1 (c0 + 1) else c0 :: rest) := by
  by_cases h5 : c0 = 5
  · by_cases hpar : side % 2 = 0 <;> simp [parseSidesColumns, h5, hpar] <;> decide
  · simp [parseSidesColumns, h5]

theorem parseSidesColumns_flag (cols : List Int) (side : Int) (out : Bool × List Int)
    (h : parseSidesColumns true cols side = Except.ok out) : out.1 = true := by
  cases cols with
  | nil => simp [parseSidesColumns] at h
  | cons c0 rest =>
    rw [parseSidesColumns_eq, Except.ok.injEq] at h
    rw [← h]
    by_cases h5 : c0 = 5 <;> simp [h5]

theorem accRowSides_flag (row : Row) : ∀ (sides : List Int) (st : AccState)
    (acc' : AccState × Bool),
    accRowSides row (st, true) sides = Except.ok acc' → acc'.2 = true := by
  intro sides
  induction sides with
  | nil =>
    intro st acc' h
    simp only [accRowSides, Except.ok.injEq] at h
    rw [← h]
  | cons side rest ih =>
    intro st acc' h
    simp only [accRowSides] at h
    cases hp : parseSidesColumns true row.columns side with
    | error e => rw [hp] at h; simp at h
    | ok pr =>
      rw [hp] at h
      have hflag : pr.1 = true := parseSidesColumns_flag _ _ _ hp
      obtain ⟨rc', cols⟩ := pr
      simp only at h hflag
      subst hflag
      exact ih _ _ h

theorem accRows_flag : ∀ (rows : List Row) (st : AccState) (acc' : AccState × Bool),
    accRows (st, true) rows = Except.ok acc' → acc'.2 = true := by
  intro rows
  induction rows with
  | nil =>
    intro st acc' h
    simp only [accRows, Except.ok.injEq] at h
    rw [← h]
  | cons row rest ih =>
    intro st acc' h
    simp only [accRows] at h
    cases hs : accRowSides row (st, true) row.sides with
    | error e => rw [hs] at h; simp at h
    | ok acc1 =>
      rw [hs] at h
      have h1 : acc1.2 = true := accRowSides_flag row row.sides st acc1 hs
      obtain ⟨st1, b1⟩ := acc1
      simp only at h h1
      subst h1
      exact ih st1 acc' h

theorem emitSlots_length (res : Resolver) : ∀ (slots : List Slot) (st : ResState),
    ((emitSlots res st slots).1).length = slots.length := by
  intro slots
  induction slots with
  | nil => intro st; rfl
  | cons sl rest ih => intro st; simp [emitSlots, ih]

end PalletProgram

/-- The repeat-columns flag parse_sides is left with after accumulating the
given rows (none when accumulation raised). -/
def flagAfter (rows : List PalletProgram.Row) (rc : Bool) : Option Bool :=
  match PalletProgram.accRows (PalletProgram.accInit, rc) rows with
  | Except.ok acc => some acc.2
  | Except.error _ => none

/-- A row whose first parsed column value is the sentinel 5. -/
def prow5 : PalletProgram.Row :=
  ⟨"", "P", "B5", "TK", "TN", 0, "", "COL", "LOGO", [1], [5], [1]⟩

/-- C1 (counterexample): after a sentinel row the mode is active, yet a later
row with first column 4 on even side 2 gets effective columns [1,2,3,4]
(range(1, 4+1)), not the parity heuristic list [1,2] the claim requires. -/
theorem C1_counterexample :
    flagAfter [prow5] false = some true ∧
    PalletProgram.parseSidesColumns true [4] 2 = Except.ok (true, [1, 2, 3, 4]) ∧
    [(1 : Int), 2, 3, 4] ≠ [1, 2] :=
  ⟨by decide, by decide, by decide⟩

/-- C1 (amended): encountering the sentinel 5 permanently switches the
aggregator into repeat-columns mode for all later rows of the call (second
conjunct), but the effective column list of a row processed in active mode is
range(1, c0+1) for the first column value c0 of the row itself, with the parity
heuristic [1,2]/[1,2,3] only for rows whose own first column is 5 (first
conjunct). -/
theorem C1_thm :
    (∀ (rc : Bool) (c0 : Int) (rest : List Int) (side : Int),
      PalletProgram.parseSidesColumns rc (c0 :: rest) side =
        Except.ok (if c0 = 5 then true else rc,
                   if c0 = 5 then (if side % 2 = 0 then [(1 : Int), 2] else [1, 2, 3])
                   else if rc then pyRange 1 (c0 + 1) else c0 :: rest)) ∧
    (∀ (rows : List PalletProgram.Row) (st : PalletProgram.AccState)
        (acc' : PalletProgram.AccState × Bool),
      PalletProgram.accRows (st, true) rows = Except.ok acc' → acc'.2 = true) :=
  ⟨PalletProgram.parseSidesColumns_eq, PalletProgram.accRows_flag⟩

/-- Witness for C1: the sentinel row itself sets the flag and gets the parity
columns, and a run started with the flag on keeps it on. -/
theorem C1_witness :
    PalletProgram.parseSidesColumns false [(5 : Int)] 2 = Except.ok (true, [1, 2]) ∧
    (PalletProgram.accInit, true).2 = true :=
  ⟨(C1_thm.1 false 5 [] 2).trans (by decide),
   C1_thm.2 [] PalletProgram.accInit (PalletProgram.accInit, true) rfl⟩

/-- A concrete resolver for witnesses: one hit with a nonzero number whose
fetch succeeds, one hit resolving to the falsy number 0, one hit whose fetch
raises, and a miss for every other key. -/
def res0 : PalletProgram.Resolver :=
  { lookup := fun k =>
      if k = "KA" then some 7 else if k = "K0" then some 0
      else if k = "KF" then some 9 else none,
    fetch := fun n =>
      if n = 9 then Except.error () else if n = 7 then Except.ok "IMG7"
      else Except.ok "IMG0" }

/-- C6 (counterexample): two adjacent slots whose lookup resolves to the same
design identifier 0 invoke the fetch operation twice, because the truthiness
guard of line 169 treats the number 0 as falsy and skips the cache. -/
theorem C6_counterexample :
    res0.lookup "K0" = some 0 ∧
    (PalletProgram.emitSlots res0 PalletProgram.resInit
        [⟨1, 1, "K0", ["x"]⟩, ⟨1, 2, "K0", ["y"]⟩]).2.1 = 2 ∧
    (2 : Nat) ≠ 1 :=
  ⟨by decide, by decide, by decide⟩

/-- C6 (amended): for two slots resolved consecutively whose lookups return
the same nonzero identifier, the second slot reuses the image of the first slot as
payload without invoking fetch, so the pair invokes fetch at most once; and
from the fresh per-call initial cache state the first such slot always
invokes fetch (the cache never spans calls). -/
theorem C6_thm (res : PalletProgram.Resolver) (st : PalletProgram.ResState)
    (keyA keyB : String) (d : Int)
    (ha : res.lookup keyA = some d) (hd : d ≠ 0) (hb : res.lookup keyB = some d) :
    (PalletProgram.resolveSlot res (PalletProgram.resolveSlot res st keyA).2.1 keyB).1
      = (PalletProgram.resolveSlot res st keyA).1 ∧
    (PalletProgram.resolveSlot res (PalletProgram.resolveSlot res st keyA).2.1 keyB).2.2 = 0 ∧
    (PalletProgram.resolveSlot res st keyA).2.2
      + (PalletProgram.resolveSlot res (PalletProgram.resolveSlot res st keyA).2.1 keyB).2.2
      ≤ 1 ∧
    (st = PalletProgram.resInit → (PalletProgram.resolveSlot res st keyA).2.2 = 1) := by
  by_cases hA : st.last_used_design_number = some d
  · have he : PalletProgram.resolveSlot res st keyA
        = (st.last_used_design_image.getD "None", st, 0) := by
      simp only [PalletProgram.resolveSlot, ha]
      rw [if_pos ⟨hd, hA⟩]
    have heB : PalletProgram.resolveSlot res st keyB
        = (st.last_used_design_image.getD "None", st, 0) := by
      simp only [PalletProgram.resolveSlot, hb]
      rw [if_pos ⟨hd, hA⟩]
    rw [he]
    simp only
    rw [heB]
    refine ⟨rfl, rfl, by simp, ?_⟩
    intro hst
    rw [hst] at hA
    exact absurd hA (by simp [PalletProgram.resInit])
  · have hAeq : ∃ img, PalletProgram.resolveSlot res st keyA
        = (img, ⟨some d, some img⟩, 1) := by
      simp only [PalletProgram.resolveSlot, ha]
      rw [if_neg (fun hand => hA hand.2)]
      cases hf : res.fetch d with
      | ok img => exact ⟨img, rfl⟩
      | error e => exact ⟨_, rfl⟩
    obtain ⟨img, hAe⟩ := hAeq
    have heB : PalletProgram.resolveSlot res
        (⟨some d, some img⟩ : PalletProgram.ResState) keyB
        = (img, ⟨some d, some img⟩, 0) := by
      simp [PalletProgram.resolveSlot, hb, hd]
    rw [hAe]
    simp only
    rw [heB]
    exact ⟨by simp, by simp, by simp, fun _ => by simp⟩

/-- Witness for C6 at the concrete resolver res0 and identifier 7. -/
theorem C6_witness :
    res0.lookup "KA" = some 7 ∧
    ((PalletProgram.resolveSlot res0
        (PalletProgram.resolveSlot res0 PalletProgram.resInit "KA").2.1 "KA").1
      = (PalletProgram.resolveSlot res0 PalletProgram.resInit "KA").1 ∧
    (PalletProgram.resolveSlot res0
        (PalletProgram.resolveSlot res0 PalletProgram.resInit "KA").2.1 "KA").2.2 = 0 ∧
    (PalletProgram.resolveSlot res0 PalletProgram.resInit "KA").2.2
      + (PalletProgram.resolveSlot res0
          (PalletProgram.resolveSlot res0 PalletProgram.resInit "KA").2.1 "KA").2.2
      ≤ 1 ∧
    (PalletProgram.resInit = PalletProgram.resInit →
      (PalletProgram.resolveSlot res0 PalletProgram.resInit "KA").2.2 = 1)) :=
  ⟨by decide, C6_thm res0 PalletProgram.resInit "KA" "KA" 7 (by decide) (by decide)
    (by decide)⟩

/-- C8: when lookup finds no identifier the image entry of the slot is the
fallback text embedding the key and None without any fetch; when fetch raises
(no cache hit applying) the image entry is the fallback text embedding the
key and the found identifier; and the emission loop always emits one output
row per slot (failures are non-fatal), with the resolved or fallback image as
the appended trailing element. -/
theorem C8_thm (res : PalletProgram.Resolver) (st : PalletProgram.ResState)
    (key : String) :
    (res.lookup key = none →
      (PalletProgram.resolveSlot res st key).1 = PalletProgram.fallbackText key none ∧
      (PalletProgram.resolveSlot res st key).2.2 = 0) ∧
    (∀ d : Int, res.lookup key = some d →
      ¬(d ≠ 0 ∧ st.last_used_design_number = some d) →
      res.fetch d = Except.error () →
      (PalletProgram.resolveSlot res st key).1 = PalletProgram.fallbackText key (some d)) ∧
    (∀ slots : List PalletProgram.Slot,
      ((PalletProgram.emitSlots res st slots).1).length = slots.length) ∧
    (∀ (sl : PalletProgram.Slot) (slots : List PalletProgram.Slot),
      ((PalletProgram.emitSlots res st (sl :: slots)).1).head? =
        some (PalletProgram.trimTo4 sl.ids
          ++ [(PalletProgram.resolveSlot res st sl.key).1])) := by
  refine ⟨?_, ?_, fun slots => PalletProgram.emitSlots_length res slots st, ?_⟩
  · intro h
    simp [PalletProgram.resolveSlot, h]
  · intro d hd hc hf
    simp only [PalletProgram.resolveSlot, hd]
    rw [if_neg hc, hf]
  · intro sl slots
    simp [PalletProgram.emitSlots]

/-- Witness for C8 at the concrete resolver res0: a missing key and a key
whose fetch raises. -/
theorem C8_witness :
    ((PalletProgram.resolveSlot res0 PalletProgram.resInit "nope").1
        = PalletProgram.fallbackText "nope" none ∧
      (PalletProgram.resolveSlot res0 PalletProgram.resInit "nope").2.2 = 0) ∧
    (PalletProgram.resolveSlot res0 PalletProgram.resInit "KF").1
        = PalletProgram.fallbackText "KF" (some 9) :=
  ⟨(C8_thm res0 PalletProgram.resInit "nope").1 (by decide),
   (C8_thm res0 PalletProgram.resInit "KF").2.1 9 (by decide) (by decide) (by decide)⟩

namespace PalletProgram

theorem pyGetS_ok (l : List String) (i : Nat) (h : i < l.length) :
    pyGetS l i = Except.ok (l.getD i "") := by
  simp [pyGetS, List.getElem?_eq_getElem h, List.getD_eq_getElem?_getD]

theorem pyGetS_err (l : List String) (i : Nat) (h : l.length ≤ i) :
    ∃ e, pyGetS l i = Except.error e := by
  refine ⟨"IndexError: list index out of range", ?_⟩
  simp [pyGetS, List.getElem?_eq_none h]

theorem getCol_ok (data : List (List String)) (i : Nat) (h : ∀ l ∈ data, i < l.length) :
    getCol data i = Except.ok (data.map (fun l => l.getD i "")) := by
  induction data with
  | nil => rfl
  | cons l rest ih =>
    have hv := pyGetS_ok l i (h l (by simp))
    have ht := ih (fun m hm => h m (by simp [hm]))
    simp [getCol, hv, ht]

theorem getCol_err (data : List (List String)) (i : Nat) (h : ∃ l ∈ data, l.length ≤ i) :
    ∃ e, getCol data i = Except.error e := by
  induction data with
  | nil => simp at h
  | cons a rest ih =>
    by_cases hla : a.length ≤ i
    · obtain ⟨e, he⟩ := pyGetS_err a i hla
      exact ⟨e, by simp [getCol, he]⟩
    · obtain ⟨l, hm, hl⟩ := h
      rcases List.mem_cons.mp hm with hcase | hcase
      · exact absurd hl (by rw [hcase]; omega)
      · obtain ⟨e, he⟩ := ih ⟨l, hcase, hl⟩
        have hok := pyGetS_ok a i (by omega)
        exact ⟨e, by simp [getCol, hok, he]⟩

/-- The spec words of section 4.4: output row i is the header label followed
by the entry at index i of every input column, in input order. -/
def specRow (data : List (List String)) (i : Nat) : List String :=
  heads.getD i "" :: data.map (fun l => l.getD i "")

theorem flip_ok_all (data : List (List String)) (h : ∀ l ∈ data, 5 ≤ l.length) :
    flip_pallet_sides data =
      Except.ok [specRow data 0, specRow data 1, specRow data 2, specRow data 3,
                 specRow data 4] := by
  have h0 := getCol_ok data 0 (fun l hm => by have := h l hm; omega)
  have h1 := getCol_ok data 1 (fun l hm => by have := h l hm; omega)
  have h2 := getCol_ok data 2 (fun l hm => by have := h l hm; omega)
  have h3 := getCol_ok data 3 (fun l hm => by have := h l hm; omega)
  have h4 := getCol_ok data 4 (fun l hm => by have := h l hm; omega)
  simp [flip_pallet_sides, heads, flipRows, h0, h1, h2, h3, h4, specRow]

theorem flipRows_ok_cols : ∀ (hs : List String) (i0 : Nat) (data out : List (List String)),
    flipRows data hs i0 = Except.ok out →
    ∀ k, k < hs.length → ∃ col, getCol data (i0 + k) = Except.ok col := by
  intro hs
  induction hs with
  | nil =>
    intro i0 data out h k hk
    exact absurd hk (by simp)
  | cons hd tl ih =>
    intro i0 data out h k hk
    simp only [flipRows] at h
    cases hg : getCol data i0 with
    | error e => rw [hg] at h; simp at h
    | ok col =>
      rw [hg] at h
      cases hrest : flipRows data tl (i0 + 1) with
      | error e => rw [hrest] at h; simp at h
      | ok out' =>
        cases k with
        | zero => exact ⟨col, by simpa using hg⟩
        | succ n =>
          obtain ⟨c, hc⟩ := ih (i0 + 1) data out' hrest n (by simpa using hk)
          refine ⟨c, ?_⟩
          rw [← hc]
          congr 1
          omega

theorem flipShortErrors (data : List (List String)) (h : ∃ l ∈ data, l.length < 5) :
    ∃ e, flip_pallet_sides data = Except.error e := by
  obtain ⟨l, hm, hl⟩ := h
  cases hres : flip_pallet_sides data with
  | error e => exact ⟨e, rfl⟩
  | ok out =>
    exfalso
    have hres' : flipRows data heads 0 = Except.ok out := hres
    obtain ⟨col, hcol⟩ :=
      flipRows_ok_cols heads 0 data out hres' l.length (by simp [heads]; omega)
    obtain ⟨e, he⟩ := getCol_err data l.length ⟨l, hm, le_refl _⟩
    rw [show 0 + l.length = l.length by omega] at hcol
    rw [he] at hcol
    cases hcol

end PalletProgram

/-- A six-entry inner list (one longer than the header count). -/
def sixList : List String := ["a", "b", "c", "d", "e", "f"]

/-- C3 (counterexample): an inner list of length 6 does not raise; the
transposer returns normally and the sixth entry is silently dropped from the
output. -/
theorem C3_counterexample :
    PalletProgram.flip_pallet_sides [sixList] =
      Except.ok [["XS (13) / S (13)", "a"], ["M (30)", "b"], ["L (32)", "c"],
                 ["XL (20)", "d"], ["IMAGE", "e"]] ∧
    "f" ∈ sixList ∧
    "f" ∉ ["XS (13) / S (13)", "a"] ∧ "f" ∉ ["M (30)", "b"] ∧ "f" ∉ ["L (32)", "c"] ∧
    "f" ∉ ["XL (20)", "d"] ∧ "f" ∉ ["IMAGE", "e"] := by decide

/-- C3 (amended): an inner list shorter than the header count 5 makes
flip_pallet_sides raise (IndexError at the first missing position), but an
inner list of length 5 or more never fails - the transposer reads only
indices 0..4, so entries beyond index 4 of a longer list are silently
ignored. -/
theorem C3_thm (data : List (List String)) :
    ((∃ l ∈ data, l.length < 5) →
      ∃ e, PalletProgram.flip_pallet_sides data = Except.error e) ∧
    ((∀ l ∈ data, 5 ≤ l.length) →
      PalletProgram.flip_pallet_sides data =
        Except.ok [PalletProgram.specRow data 0, PalletProgram.specRow data 1,
                   PalletProgram.specRow data 2, PalletProgram.specRow data 3,
                   PalletProgram.specRow data 4]) :=
  ⟨PalletProgram.flipShortErrors data, PalletProgram.flip_ok_all data⟩

/-- Witness for C3: a one-entry inner list raises; the six-entry list is
tolerated. -/
theorem C3_witness :
    (∃ e, PalletProgram.flip_pallet_sides [["x"]] = Except.error e) ∧
    PalletProgram.flip_pallet_sides [sixList] =
      Except.ok [PalletProgram.specRow [sixList] 0, PalletProgram.specRow [sixList] 1,
                 PalletProgram.specRow [sixList] 2, PalletProgram.specRow [sixList] 3,
                 PalletProgram.specRow [sixList] 4] :=
  ⟨(C3_thm [["x"]]).1 ⟨["x"], by decide, by decide⟩,
   (C3_thm [sixList]).2 (by decide)⟩

/-- Modelled from the spec: reversing the transposition (spec section 8) -
strip the header label of every output row (drop index 0) and regroup the
remaining entries by original column index. -/
def recoverColumns (n : Nat) (table : List (List String)) : List (List String) :=
  (List.range n).map (fun j => table.map (fun r => r.getD (j + 1) ""))

theorem list5_getD (l : List String) (h : l.length = 5) :
    [l.getD 0 "", l.getD 1 "", l.getD 2 "", l.getD 3 "", l.getD 4 ""] = l := by
  rcases l with _ | ⟨a, _ | ⟨b, _ | ⟨c, _ | ⟨d, _ | ⟨e, _ | ⟨f, t⟩⟩⟩⟩⟩⟩
  · simp at h
  · simp at h
  · simp at h
  · simp at h
  · simp at h
  · rfl
  · simp at h

/-- C7: on input whose inner lists all have length exactly 5 the transposer
is a faithful pivot - it succeeds, output row i is the header label followed
by entry i of every input column in order, and stripping the header labels
and regrouping by original column index reconstructs the input exactly. -/
theorem C7_thm (data : List (List String)) (h : ∀ l ∈ data, l.length = 5) :
    PalletProgram.flip_pallet_sides data =
      Except.ok [PalletProgram.specRow data 0, PalletProgram.specRow data 1,
                 PalletProgram.specRow data 2, PalletProgram.specRow data 3,
                 PalletProgram.specRow data 4] ∧
    recoverColumns data.length
      [PalletProgram.specRow data 0, PalletProgram.specRow data 1,
       PalletProgram.specRow data 2, PalletProgram.specRow data 3,
       PalletProgram.specRow data 4] = data := by
  refine ⟨PalletProgram.flip_ok_all data (fun l hm => by rw [h l hm]), ?_⟩
  unfold recoverColumns
  apply List.ext_getElem (by simp)
  intro i h1 h2
  have hi : i < data.length := by simpa using h2
  have hmap : ∀ (g : List String → String), (data.map g).getD i "" = g (data.getD i []) := by
    intro g
    rw [List.getD_eq_getElem?_getD, List.getElem?_map, List.getElem?_eq_getElem hi]
    simp [List.getD_eq_getElem?_getD, List.getElem?_eq_getElem hi]
  have hdi : data[i] = data.getD i [] := by
    simp [List.getD_eq_getElem?_getD, List.getElem?_eq_getElem hi]
  simp only [List.getElem_map, List.getElem_range, List.map_cons, List.map_nil,
    PalletProgram.specRow, List.getD_cons_succ, hmap, hdi]
  exact list5_getD (data.getD i []) (by rw [← hdi]; exact h data[i] (List.getElem_mem h2))

/-- Witness for C7 at a concrete single length-5 column. -/
theorem C7_witness :
    PalletProgram.flip_pallet_sides [["a", "b", "c", "d", "e"]] =
      Except.ok [PalletProgram.specRow [["a", "b", "c", "d", "e"]] 0,
                 PalletProgram.specRow [["a", "b", "c", "d", "e"]] 1,
                 PalletProgram.specRow [["a", "b", "c", "d", "e"]] 2,
                 PalletProgram.specRow [["a", "b", "c", "d", "e"]] 3,
                 PalletProgram.specRow [["a", "b", "c", "d", "e"]] 4] ∧
    recoverColumns 1
      [PalletProgram.specRow [["a", "b", "c", "d", "e"]] 0,
       PalletProgram.specRow [["a", "b", "c", "d", "e"]] 1,
       PalletProgram.specRow [["a", "b", "c", "d", "e"]] 2,
       PalletProgram.specRow [["a", "b", "c", "d", "e"]] 3,
       PalletProgram.specRow [["a", "b", "c", "d", "e"]] 4] = [["a", "b", "c", "d", "e"]] :=
  C7_thm [["a", "b", "c", "d", "e"]] (by decide)

namespace PalletProgram

theorem trimTo4_length (l : List String) : (trimTo4 l).length = min l.length 4 := by
  unfold trimTo4
  by_cases h : 4 < l.length
  · rw [if_pos h]
    simp only [List.length_drop]
    omega
  · rw [if_neg h]
    omega

theorem emitSlots_cons (res : Resolver) (st : ResState) (sl : Slot) (rest : List Slot) :
    (emitSlots res st (sl :: rest)).1 =
      (trimTo4 sl.ids ++ [(resolveSlot res st sl.key).1])
        :: (emitSlots res (resolveSlot res st sl.key).2.1 rest).1 := rfl

theorem emitSlots_forall (res : Resolver) (P : Slot → List String → Prop)
    (hP : ∀ (sl : Slot) (st : ResState),
      P sl (trimTo4 sl.ids ++ [(resolveSlot res st sl.key).1])) :
    ∀ (slots : List Slot) (st : ResState),
      List.Forall₂ P slots (emitSlots res st slots).1 := by
  intro slots
  induction slots with
  | nil => intro st; exact List.Forall₂.nil
  | cons sl rest ih =>
    intro st
    rw [emitSlots_cons]
    exact List.Forall₂.cons (hP sl st) (ih _)

theorem emitSlots_mem (res : Resolver) : ∀ (slots : List Slot) (st : ResState)
    (r : List String), r ∈ (emitSlots res st slots).1 →
    ∃ sl img, sl ∈ slots ∧ r = trimTo4 sl.ids ++ [img] := by
  intro slots
  induction slots with
  | nil => intro st r hr; simp [emitSlots] at hr
  | cons sl rest ih =>
    intro st r hr
    rw [emitSlots_cons] at hr
    rcases List.mem_cons.mp hr with h | h
    · exact ⟨sl, (resolveSlot res st sl.key).1, by simp, h⟩
    · obtain ⟨sl', img, hm, he⟩ := ih _ r h
      exact ⟨sl', img, by simp [hm], he⟩

theorem alget_mem {κ : Type u} {ν : Type v} [DecidableEq κ] :
    ∀ (m : List (κ × ν)) (k : κ) (v : ν), alget m k = some v → (k, v) ∈ m := by
  intro m
  induction m with
  | nil => intro k v h; simp [alget] at h
  | cons p t ih =>
    intro k v h
    by_cases hpk : p.1 = k
    · rw [alget, if_pos hpk] at h
      rw [Option.some.injEq] at h
      rw [← hpk, ← h]
      exact List.mem_cons_self _ _
    · rw [alget, if_neg hpk] at h
      exact List.mem_cons_of_mem p (ih k v h)

theorem alget_isSome_of_key {κ : Type u} {ν : Type v} [DecidableEq κ] :
    ∀ (m : List (κ × ν)) (k : κ), k ∈ m.map Prod.fst → ∃ v, alget m k = some v := by
  intro m
  induction m with
  | nil => intro k hk; simp at hk
  | cons p t ih =>
    intro k hk
    by_cases hpk : p.1 = k
    · exact ⟨p.2, by rw [alget, if_pos hpk]⟩
    · have hk' : k ∈ t.map Prod.fst := by
        simp only [List.map_cons, List.mem_cons] at hk
        rcases hk with h | h
        · exact absurd h.symm hpk
        · exact h
      obtain ⟨v, hv⟩ := ih k hk'
      exact ⟨v, by rw [alget, if_neg hpk]; exact hv⟩

theorem ensureSide_NE (m : List (Int × List (Int × List String))) (side : Int)
    (h : ∀ p ∈ m, ∀ q ∈ p.2, q.2 ≠ []) :
    ∀ p ∈ ensureSide m side, ∀ q ∈ p.2, q.2 ≠ [] := by
  unfold ensureSide
  split
  · exact h
  · intro p hp q hq
    rcases List.mem_append.mp hp with hp | hp
    · exact h p hp q hq
    · simp only [List.mem_singleton] at hp
      rw [hp] at hq
      simp at hq

theorem appendFresh_P2 (m : List (Int × List (Int × List String))) (side column : Int)
    (h : ∀ p ∈ m, ∀ q ∈ p.2, q.2 ≠ []) :
    ∀ p ∈ alupdate m side (fun cm => cm ++ [(column, ([] : List String))]),
      ∀ q ∈ p.2, q.2 ≠ [] ∨ (p.1 = side ∧ q.1 = column) := by
  intro p hp q hq
  obtain ⟨p0, hp0, hfp⟩ := List.mem_map.mp hp
  by_cases hps : p0.1 = side
  · rw [if_pos hps] at hfp
    rw [← hfp] at hq
    simp only at hq
    rcases List.mem_append.mp hq with hq | hq
    · exact Or.inl (h p0 hp0 q hq)
    · simp only [List.mem_singleton] at hq
      rw [← hfp, hq]
      exact Or.inr ⟨hps, rfl⟩
  · rw [if_neg hps] at hfp
    rw [← hfp] at hq
    exact Or.inl (h p0 hp0 q hq)

theorem update_append_NE (m : List (Int × List (Int × List String)))
    (side column : Int) (baby : String)
    (h2 : ∀ p ∈ m, ∀ q ∈ p.2, q.2 ≠ [] ∨ (p.1 = side ∧ q.1 = column)) :
    ∀ p ∈ alupdate m side (fun cm => alupdate cm column (fun l => l ++ [baby])),
      ∀ q ∈ p.2, q.2 ≠ [] := by
  intro p hp q hq
  obtain ⟨p0, hp0, hfp⟩ := List.mem_map.mp hp
  by_cases hps : p0.1 = side
  · rw [if_pos hps] at hfp
    rw [← hfp] at hq
    simp only at hq
    obtain ⟨q0, hq0, hfq⟩ := List.mem_map.mp hq
    by_cases hqc : q0.1 = column
    · rw [if_pos hqc] at hfq
      rw [← hfq]
      simp
    · rw [if_neg hqc] at hfq
      rw [← hfq]
      rcases h2 p0 hp0 q0 hq0 with hne | hcol
      · exact hne
      · exact absurd hcol.2 hqc
  · rw [if_neg hps] at hfp
    rw [← hfp] at hq
    rcases h2 p0 hp0 q hq with hne | hcol
    · exact hne
    · exact absurd hcol.1 hps

theorem accCol_NE (st : AccState) (row : Row) (side column : Int)
    (h : ∀ p ∈ st.sides, ∀ q ∈ p.2, q.2 ≠ []) :
    ∀ p ∈ (accCol st row side column).sides, ∀ q ∈ p.2, q.2 ≠ [] := by
  have h1 := ensureSide_NE st.sides side h
  have h2 : ∀ p ∈ (if (alget ((alget (ensureSide st.sides side) side).getD []) column).isNone
      then alupdate (ensureSide st.sides side) side
        (fun m => m ++ [(column, ([] : List String))])
      else ensureSide st.sides side),
      ∀ q ∈ p.2, q.2 ≠ [] ∨ (p.1 = side ∧ q.1 = column) := by
    split
    · exact appendFresh_P2 _ side column h1
    · intro p hp q hq
      exact Or.inl (h1 p hp q hq)
  exact update_append_NE _ side column row.baby_zppk h2

theorem foldCols_NE (row : Row) (side : Int) : ∀ (cols : List Int) (st : AccState),
    (∀ p ∈ st.sides, ∀ q ∈ p.2, q.2 ≠ []) →
    ∀ p ∈ (cols.foldl (fun s c => accCol s row side c) st).sides, ∀ q ∈ p.2, q.2 ≠ [] := by
  intro cols
  induction cols with
  | nil => intro st h; exact h
  | cons c rest ih =>
    intro st h
    exact ih (accCol st row side c) (accCol_NE st row side c h)

theorem accRowSides_NE (row : Row) : ∀ (sides : List Int) (st : AccState) (rc : Bool)
    (acc' : AccState × Bool), accRowSides row (st, rc) sides = Except.ok acc' →
    (∀ p ∈ st.sides, ∀ q ∈ p.2, q.2 ≠ []) →
    ∀ p ∈ acc'.1.sides, ∀ q ∈ p.2, q.2 ≠ [] := by
  intro sides
  induction sides with
  | nil =>
    intro st rc acc' h hne
    simp only [accRowSides, Except.ok.injEq] at h
    rw [← h]
    exact hne
  | cons side rest ih =>
    intro st rc acc' h hne
    simp only [accRowSides] at h
    cases hp : parseSidesColumns rc row.columns side with
    | error e => rw [hp] at h; simp at h
    | ok pr =>
      rw [hp] at h
      obtain ⟨rc', cols⟩ := pr
      simp only at h
      exact ih _ rc' acc' h (foldCols_NE row side cols st hne)

theorem accRows_NE : ∀ (rows : List Row) (st : AccState) (rc : Bool)
    (acc' : AccState × Bool), accRows (st, rc) rows = Except.ok acc' →
    (∀ p ∈ st.sides, ∀ q ∈ p.2, q.2 ≠ []) →
    ∀ p ∈ acc'.1.sides, ∀ q ∈ p.2, q.2 ≠ [] := by
  intro rows
  induction rows with
  | nil =>
    intro st rc acc' h hne
    simp only [accRows, Except.ok.injEq] at h
    rw [← h]
    exact hne
  | cons row rest ih =>
    intro st rc acc' h hne
    simp only [accRows] at h
    cases hs : accRowSides row (st, rc) row.sides with
    | error e => rw [hs] at h; simp at h
    | ok acc1 =>
      rw [hs] at h
      have h1 := accRowSides_NE row row.sides st rc acc1 hs hne
      obtain ⟨st1, b1⟩ := acc1
      exact ih st1 b1 acc' h h1

theorem sortedSlots_NE (st : AccState) (h : ∀ p ∈ st.sides, ∀ q ∈ p.2, q.2 ≠ []) :
    ∀ sl ∈ sortedSlots st, sl.ids ≠ [] := by
  intro sl hsl
  unfold sortedSlots at hsl
  obtain ⟨s, hs, hsl2⟩ := List.mem_flatMap.mp hsl
  obtain ⟨c, hc, hslc⟩ := List.mem_map.mp hsl2
  have hs' : s ∈ st.sides.map Prod.fst := (mem_sortKeys s _).mp hs
  obtain ⟨cm, hcm⟩ := alget_isSome_of_key st.sides s hs'
  rw [hcm] at hc hslc
  simp only [Option.getD_some] at hc hslc
  have hc' : c ∈ cm.map Prod.fst := (mem_sortKeys c _).mp hc
  obtain ⟨ids, hids⟩ := alget_isSome_of_key cm c hc'
  rw [hids] at hslc
  have hmem1 := alget_mem st.sides s cm hcm
  have hmem2 := alget_mem cm c ids hids
  have := h (s, cm) hmem1 (c, ids) hmem2
  rw [← hslc]
  simpa using this

end PalletProgram

/-- C4: the id portion of every emitted slot list is the accumulated list when
it has at most 4 entries and exactly the last 4 accumulated entries in
original order when longer, so the id portion (everything before the trailing
image entry) always has length at most 4; stated for the trimming function,
for the emission loop over arbitrary slots, and for every row of a successful
parse_sides run. -/
theorem C4_thm :
    (∀ l : List String,
      (4 < l.length → PalletProgram.trimTo4 l = l.drop (l.length - 4) ∧
        (PalletProgram.trimTo4 l).length = 4) ∧
      (l.length ≤ 4 → PalletProgram.trimTo4 l = l) ∧
      (PalletProgram.trimTo4 l).length ≤ 4) ∧
    (∀ (res : PalletProgram.Resolver) (st : PalletProgram.ResState)
        (slots : List PalletProgram.Slot),
      List.Forall₂ (fun sl out => out.dropLast = PalletProgram.trimTo4 sl.ids ∧
          out.dropLast.length ≤ 4 ∧
          ∃ img, out = PalletProgram.trimTo4 sl.ids ++ [img])
        slots (PalletProgram.emitSlots res st slots).1) ∧
    (∀ (res : PalletProgram.Resolver) (rows : List PalletProgram.Row) (rc : Bool)
        (out : List (List String)),
      PalletProgram.parse_sides res rows rc = Except.ok out →
      ∀ r ∈ out, r.dropLast.length ≤ 4 ∧
        ∃ ids img, r = PalletProgram.trimTo4 ids ++ [img]) := by
  have hlen : ∀ l : List String, (PalletProgram.trimTo4 l).length ≤ 4 := by
    intro l
    rw [PalletProgram.trimTo4_length]
    omega
  refine ⟨?_, ?_, ?_⟩
  · intro l
    refine ⟨?_, ?_, hlen l⟩
    · intro h
      constructor
      · simp [PalletProgram.trimTo4, h]
      · rw [PalletProgram.trimTo4_length]
        omega
    · intro h
      simp [PalletProgram.trimTo4, Nat.not_lt.mpr h]
  · intro res st slots
    apply PalletProgram.emitSlots_forall
    intro sl st'
    rw [List.dropLast_concat]
    exact ⟨rfl, hlen sl.ids, ⟨_, rfl⟩⟩
  · intro res rows rc out hps r hr
    unfold PalletProgram.parse_sides at hps
    cases hacc : PalletProgram.accRows (PalletProgram.accInit, rc) rows with
    | error e => rw [hacc] at hps; cases hps
    | ok acc =>
      rw [hacc] at hps
      obtain ⟨st, b⟩ := acc
      simp only [Except.ok.injEq] at hps
      rw [← hps] at hr
      obtain ⟨sl, img, hm, he⟩ := PalletProgram.emitSlots_mem res _ _ r hr
      refine ⟨?_, sl.ids, img, he⟩
      rw [he, List.dropLast_concat]
      exact hlen sl.ids

/-- Witness for C4: the six-entry list is trimmed to its last four, a short
list is kept whole, and a concrete parse_sides run has only rows of the
stated shape. -/
theorem C4_witness :
    (PalletProgram.trimTo4 sixList = sixList.drop (sixList.length - 4) ∧
      (PalletProgram.trimTo4 sixList).length = 4) ∧
    PalletProgram.trimTo4 ["a"] = ["a"] ∧
    (∃ out, PalletProgram.parse_sides res0 [prow5] false = Except.ok out ∧
      ∀ r ∈ out, r.dropLast.length ≤ 4 ∧
        ∃ ids img, r = PalletProgram.trimTo4 ids ++ [img]) :=
  ⟨(C4_thm.1 sixList).1 (by decide), (C4_thm.1 ["a"]).2.1 (by decide),
   ⟨_, rfl, C4_thm.2.2 res0 [prow5] false _ rfl⟩⟩

/-- C10 (implicit): every emitted inner list has length min(n, 4) + 1 for the
n ids accumulated at its slot; since every slot of a real run accumulates at
least one id, lengths lie in 2..5 and equal the header count 5 exactly when
the slot accumulated at least 4 ids, and any successful parse_sides output
containing a row shorter than 5 makes the composed flip_pallet_sides call of
PalletConfig.build_from fail its exact-length contract. -/
theorem C10_thm :
    (∀ (res : PalletProgram.Resolver) (st : PalletProgram.ResState)
        (slots : List PalletProgram.Slot),
      List.Forall₂ (fun sl out => out.length = min sl.ids.length 4 + 1 ∧
          (1 ≤ sl.ids.length → 2 ≤ out.length ∧ out.length ≤ 5) ∧
          (out.length = 5 ↔ 4 ≤ sl.ids.length))
        slots (PalletProgram.emitSlots res st slots).1) ∧
    (∀ (res : PalletProgram.Resolver) (rows : List PalletProgram.Row) (rc : Bool)
        (out : List (List String)),
      PalletProgram.parse_sides res rows rc = Except.ok out →
      ∀ r ∈ out, 2 ≤ r.length ∧ r.length ≤ 5) ∧
    (∀ (res : PalletProgram.Resolver) (rows : List PalletProgram.Row) (rc : Bool)
        (out : List (List String)),
      PalletProgram.parse_sides res rows rc = Except.ok out →
      (∃ r ∈ out, r.length < 5) →
      ∃ e, PalletProgram.flip_pallet_sides out = Except.error e) := by
  refine ⟨?_, ?_, ?_⟩
  · intro res st slots
    apply PalletProgram.emitSlots_forall
    intro sl st'
    have h1 : (PalletProgram.trimTo4 sl.ids ++ [(PalletProgram.resolveSlot res st' sl.key).1]).length
        = min sl.ids.length 4 + 1 := by
      rw [List.length_append, PalletProgram.trimTo4_length]
      rfl
    refine ⟨h1, ?_, ?_⟩
    · intro hn
      rw [h1]
      omega
    · rw [h1]
      omega
  · intro res rows rc out hps r hr
    unfold PalletProgram.parse_sides at hps
    cases hacc : PalletProgram.accRows (PalletProgram.accInit, rc) rows with
    | error e => rw [hacc] at hps; cases hps
    | ok acc =>
      rw [hacc] at hps
      obtain ⟨st, b⟩ := acc
      simp only [Except.ok.injEq] at hps
      rw [← hps] at hr
      obtain ⟨sl, img, hm, he⟩ := PalletProgram.emitSlots_mem res _ _ r hr
      have hne : sl.ids ≠ [] := by
        refine PalletProgram.sortedSlots_NE st ?_ sl hm
        exact PalletProgram.accRows_NE rows PalletProgram.accInit rc (st, b) hacc
          (by intro p hp; simp [PalletProgram.accInit] at hp)
      have hlen1 : 1 ≤ sl.ids.length := by
        cases hids : sl.ids with
        | nil => exact absurd hids hne
        | cons a t => simp
      rw [he, List.length_append, PalletProgram.trimTo4_length]
      simp only [List.length_singleton]
      omega
  · intro res rows rc out _ hshort
    apply PalletProgram.flipShortErrors
    exact hshort

/-- Witness for C10: a concrete run where one row with the sentinel column
produces three slots of one id each - every output row has length 2, and the
composed transposer call fails. -/
theorem C10_witness :
    ∃ out, PalletProgram.parse_sides res0 [prow5] false = Except.ok out ∧
      (∀ r ∈ out, 2 ≤ r.length ∧ r.length ≤ 5) ∧
      ∃ e, PalletProgram.flip_pallet_sides out = Except.error e :=
  ⟨_, rfl, C10_thm.2.1 res0 [prow5] false _ rfl,
   C10_thm.2.2 res0 [prow5] false _ rfl (by decide)⟩

/-- C9: build_from on a list of at least 2 rows (written init ++ [prev, last])
pops the last row - the list of the caller is left as init ++ [prev] - and takes
callout, dc_target and required_count from it; zppk, team_key and team_name
come from prev, the row that is last after removal; the sides table is
parse_sides of the remaining rows fed through flip_pallet_sides; and any list
with fewer than 2 rows makes the call fail. -/
theorem C9_thm (res : PalletProgram.Resolver) :
    (∀ (init : List PalletProgram.Row) (prev last : PalletProgram.Row),
      PalletProgram.PalletConfig.build_from res (init ++ [prev, last]) =
        match PalletProgram.parse_sides res (init ++ [prev]) false with
        | Except.error e => Except.error e
        | Except.ok parsed =>
          match PalletProgram.flip_pallet_sides parsed with
          | Except.error e => Except.error e
          | Except.ok sides =>
            Except.ok ({ zppk := prev.parent_zppk, team_key := prev.team_key,
                         team_name := prev.team_name, callout := last.callout,
                         dc_target := last.dc_target,
                         pallet_type := PalletProgram.PalletType.TOWER,
                         required_count := last.requested_pallet_count,
                         sides := sides }, init ++ [prev])) ∧
    (∀ rows : List PalletProgram.Row, rows.length < 2 →
      ∃ e, PalletProgram.PalletConfig.build_from res rows = Except.error e) := by
  constructor
  · intro init prev last
    have hsplit : init ++ [prev, last] = (init ++ [prev]) ++ [last] := by simp
    have h1 : (init ++ [prev, last]).getLast? = some last := by
      rw [hsplit]
      exact List.getLast?_concat _
    have h2 : (init ++ [prev, last]).dropLast = init ++ [prev] := by
      rw [hsplit]
      exact List.dropLast_concat
    have h3 : (init ++ [prev]).getLast? = some prev := List.getLast?_concat _
    unfold PalletProgram.PalletConfig.build_from
    rw [h1]
    simp only [h2, h3]
  · intro rows hlen
    rcases rows with _ | ⟨a, _ | ⟨b, t⟩⟩
    · exact ⟨_, rfl⟩
    · exact ⟨_, rfl⟩
    · exfalso
      simp only [List.length_cons] at hlen
      omega

/-- Witness for C9: a single-row list makes build_from fail. -/
theorem C9_witness :
    ∃ e, PalletProgram.PalletConfig.build_from res0 [prow5] = Except.error e :=
  (C9_thm res0).2 [prow5] (by decide)
